import Mathlib

/-!
Verification of the read path of the append-only record log (package `pen`):
`ReadFromReader`, `ScanFromReader` and `NewReader` from the repository source,
shallowly embedded over byte lists.  Machine integers (`uint32`) are modelled
as `Nat` with explicit `% 2^32`; a byte is a `Nat` taken mod 256 where the Go
type `byte` forces it.  The package-level constants `PAD` and `MAGIC` and the
checksum function `Hash` are declared outside the given source files, so they
appear here as parameters constrained only as the spec constrains them
(`PAD ≥ 16`, a fixed 4-byte magic, a pluggable 32-bit checksum).
-/

/-- The modulus of Go `uint32` arithmetic. -/
def U32 : Nat := 4294967296

/-- Error values a read can surface: `io.EOF`, the package's `EBADSLT`
(checksum mismatch) and `EINVAL` (invalid argument), plus an arbitrary
family `ioErr code` standing for any other I/O failure from the storage
layer. -/
inductive Err where
  | eof
  | ebadslt
  | einval
  | ioErr (code : Nat)
deriving DecidableEq

/-- Embedding of `binary.LittleEndian.Uint32`: the little-endian 32-bit value
of the first four bytes of a list.  The `% 256` records that Go reads these
through the `byte` type. -/
def le32 (bs : List Nat) : Nat :=
  bs.getD 0 0 % 256 + bs.getD 1 0 % 256 * 256 + bs.getD 2 0 % 256 * 65536 +
    bs.getD 3 0 % 256 * 16777216

/-- Little-endian 4-byte encoding of a 32-bit value, as
`binary.LittleEndian.PutUint32` lays it out. -/
def le32enc (x : Nat) : List Nat :=
  [x % 256, x / 256 % 256, x / 65536 % 256, x / 16777216 % 256]

/-- A positional-read source (`io.ReaderAt`): given a buffer length and a byte
position it returns the bytes actually read and the accompanying error. -/
def ReaderAt : Type := Nat → Nat → List Nat × Option Err

/-- The `ReaderAt` of an ordinary file holding `file`: it returns the bytes
present at the position, `io.EOF` exactly when the buffer could not be
filled (the contract of `os.File.ReadAt`). -/
def fileReadAt (file : List Nat) : ReaderAt := fun bufLen pos =>
  let avail := (file.drop pos).take bufLen
  (avail, if avail.length = bufLen then none else some Err.eof)

/-- The Go return triple of `ReadFromReader`: `data` is `none` for a nil
slice, `next` the next offset, `err` the error value. -/
structure ReadResult where
  data : Option (List Nat)
  next : Nat
  err : Option Err
deriving DecidableEq

/-- Embedding of `ReadFromReader(reader, offset, blockSize)`.  `Hash`,
`MAGIC` and `PAD` are the package-level checksum, magic constant and padding
granularity.  All `uint32` operations carry an explicit `% U32`; in
particular the byte position is `offset * PAD % U32` because Go multiplies
in `uint32` before widening with `int64(...)`. -/
def ReadFromReader (Hash : List Nat → Nat) (MAGIC : List Nat) (PAD : Nat)
    (reader : ReaderAt) (offset blockSize : Nat) : ReadResult :=
  let pos := offset * PAD % U32
  let res := reader blockSize pos
  let block := res.1
  -- if n < 16: end of file, or not enough space to read the header
  if block.length < 16 then ⟨none, 0, res.2⟩ else
  let header := block.take 16
  if (header.drop 8).take 4 ≠ MAGIC then ⟨none, 0, some Err.ebadslt⟩ else
  if le32 (header.drop 12) ≠ Hash (header.take 12) % U32 then
    ⟨none, 0, some Err.ebadslt⟩ else
  let metadataLen := le32 header
  let nextOffset := (offset + (16 + metadataLen + (PAD - 1)) % U32 / PAD) % U32
  let readIntoE : Except Err (List Nat) :=
    if metadataLen < block.length - 16 then
      Except.ok ((block.drop 16).take metadataLen)
    else
      let res2 := reader metadataLen (pos + 16)
      match res2.2 with
      | some e => Except.error e
      | none =>
        -- Go fills a fresh `make([]byte, metadataLen)` buffer; bytes the
        -- reader did not deliver stay zero (the returned count is ignored)
        Except.ok (res2.1.take metadataLen ++
          List.replicate (metadataLen - res2.1.length) 0)
  match readIntoE with
  | Except.error e => ⟨none, 0, some e⟩
  | Except.ok readInto =>
    if le32 (header.drop 4) ≠ Hash readInto % U32 then
      ⟨none, 0, some Err.ebadslt⟩
    else ⟨some readInto, nextOffset, none⟩

/-- The sequence of positional reads `(bufLen, bytePos)` that
`ReadFromReader` issues on its source, following the same control flow. -/
def readCalls (Hash : List Nat → Nat) (MAGIC : List Nat) (PAD : Nat)
    (reader : ReaderAt) (offset blockSize : Nat) : List (Nat × Nat) :=
  let pos := offset * PAD % U32
  let block := (reader blockSize pos).1
  let first := [(blockSize, pos)]
  if block.length < 16 then first else
  let header := block.take 16
  if (header.drop 8).take 4 ≠ MAGIC then first else
  if le32 (header.drop 12) ≠ Hash (header.take 12) % U32 then first else
  let metadataLen := le32 header
  if metadataLen < block.length - 16 then first
  else first ++ [(metadataLen, pos + 16)]

/-- How a scan run ends: `done e` is `ScanFromReader` returning the error
value `e` (`none` for success); `timeout` means the step budget ran out
with the loop still running. -/
inductive ScanEnd where
  | timeout
  | done (e : Option Err)
deriving DecidableEq

/-- Embedding of `ScanFromReader(reader, offset, blockSize, cb)`.  The loop
is driven by a step budget `fuel`; the first component records the callback
invocations `(data, offset, next)` in order, the second how the loop ended.
The offset increment on a corrupt record is the Go `offset++` on `uint32`,
hence `% U32`. -/
def ScanFromReader (Hash : List Nat → Nat) (MAGIC : List Nat) (PAD : Nat)
    (reader : ReaderAt) (blockSize : Nat)
    (cb : List Nat → Nat → Nat → Option Err) :
    Nat → Nat → List (List Nat × Nat × Nat) × ScanEnd
  | 0, _ => ([], ScanEnd.timeout)
  | fuel + 1, offset =>
    let r := ReadFromReader Hash MAGIC PAD reader offset blockSize
    if r.err = some Err.eof then ([], ScanEnd.done none)
    else if r.err = some Err.ebadslt then
      -- assume corrupted file, skip to the next offset unit
      ScanFromReader Hash MAGIC PAD reader blockSize cb fuel ((offset + 1) % U32)
    else
      match r.err with
      | some e => ([], ScanEnd.done (some e))
      | none =>
        let d := r.data.getD []
        match cb d offset r.next with
        | some e => ([(d, offset, r.next)], ScanEnd.done (some e))
        | none =>
          let rest := ScanFromReader Hash MAGIC PAD reader blockSize cb fuel r.next
          ((d, offset, r.next) :: rest.1, rest.2)

/-- Embedding of `NewReader(filename, blockSize)`.  The file open is outside
the embedding, so its outcome is a parameter `openR`; the result carries the
effective block size the handle would hold.  `blockSize` is a Go `int`,
hence `Int`. -/
def NewReader (openR : Except Err Unit) (blockSize : Int) : Except Err Int :=
  let b := if blockSize = 0 then (16 : Int) else blockSize
  if b < 16 then Except.error Err.einval
  else
    match openR with
    | Except.error e => Except.error e
    | Except.ok _ => Except.ok b

/-- A record laid out as the §6 file format prescribes: 16-byte header
(little-endian `metadata_length`, little-endian data checksum, magic,
little-endian checksum of the first 12 header bytes) followed by the
payload. -/
def encodeRecord (Hash : List Nat → Nat) (MAGIC : List Nat)
    (payload : List Nat) : List Nat :=
  let p12 := le32enc payload.length ++ le32enc (Hash payload % U32) ++ MAGIC
  p12 ++ le32enc (Hash p12 % U32) ++ payload

/-- A concrete checksum standing in for the repository's pluggable `Hash`
(the spec leaves the algorithm open); used to instantiate theorems. -/
def Hash0 (l : List Nat) : Nat :=
  l.foldl (fun a b => (a * 131 + b % 256) % U32) 17

/-- A concrete 4-byte magic constant standing in for the repository's
`MAGIC` (the spec leaves its value open); used to instantiate theorems. -/
def MAGIC0 : List Nat := [202, 254, 186, 190]

/-- A callback that always succeeds, for instantiating scan theorems. -/
def cb0 : List Nat → Nat → Nat → Option Err := fun _ _ _ => none

/-- Shape of a file as the scanner observes it from cursor `a` up to an
end-of-data marker `E`: `rs` lists the valid records `(payload, offset,
next)` in ascending offset order, every offset in the gaps before and
between them reads as corrupt, and the probe at `E` reports end-of-data.
This is the scanner-level meaning of "K valid records separated by
arbitrary corrupt byte runs". -/
inductive Layout (Hash : List Nat → Nat) (MAGIC : List Nat) (PAD : Nat)
    (reader : ReaderAt) (bs : Nat) :
    Nat → List (List Nat × Nat × Nat) → Nat → Prop where
  | nil (a E : Nat) (haE : a ≤ E) (hE : E < U32)
      (hrun : ∀ o, a ≤ o → o < E →
        (ReadFromReader Hash MAGIC PAD reader o bs).err = some Err.ebadslt)
      (heof : (ReadFromReader Hash MAGIC PAD reader E bs).err = some Err.eof) :
      Layout Hash MAGIC PAD reader bs a [] E
  | cons (a o : Nat) (p : List Nat) (n : Nat)
      (rs : List (List Nat × Nat × Nat)) (E : Nat) (hao : a ≤ o) (hon : o < n)
      (hrun : ∀ o', a ≤ o' → o' < o →
        (ReadFromReader Hash MAGIC PAD reader o' bs).err = some Err.ebadslt)
      (hok : ReadFromReader Hash MAGIC PAD reader o bs = ⟨some p, n, none⟩)
      (htail : Layout Hash MAGIC PAD reader bs n rs E) :
      Layout Hash MAGIC PAD reader bs a ((p, o, n) :: rs) E

/-! Staged unfolding lemmas for `ReadFromReader`, one per control-flow exit. -/

section Unfold

variable {Hash : List Nat → Nat} {MAGIC : List Nat} {PAD : Nat}
variable {reader : ReaderAt} {offset bs : Nat}
variable {block : List Nat} {e1 : Option Err}

/-- Exit taken when fewer than 16 bytes come back from the first read. -/
theorem read_eq_short (h1 : reader bs (offset * PAD % U32) = (block, e1))
    (h : block.length < 16) :
    ReadFromReader Hash MAGIC PAD reader offset bs = ⟨none, 0, e1⟩ := by
  simp only [ReadFromReader, h1]
  simp [h]

/-- Exit taken when the magic bytes do not match. -/
theorem read_eq_magic_fail (h1 : reader bs (offset * PAD % U32) = (block, e1))
    (h16 : 16 ≤ block.length)
    (h : ((block.take 16).drop 8).take 4 ≠ MAGIC) :
    ReadFromReader Hash MAGIC PAD reader offset bs =
      ⟨none, 0, some Err.ebadslt⟩ := by
  simp only [ReadFromReader, h1]
  simp [Nat.not_lt.2 h16, h]

/-- Exit taken when the stored header checksum disagrees with the computed
one. -/
theorem read_eq_hdrck_fail (h1 : reader bs (offset * PAD % U32) = (block, e1))
    (h16 : 16 ≤ block.length)
    (hm : ((block.take 16).drop 8).take 4 = MAGIC)
    (h : le32 ((block.take 16).drop 12) ≠ Hash ((block.take 16).take 12) % U32) :
    ReadFromReader Hash MAGIC PAD reader offset bs =
      ⟨none, 0, some Err.ebadslt⟩ := by
  simp only [ReadFromReader, h1]
  simp [Nat.not_lt.2 h16, hm, h]

/-- Fast-path exit: the payload is sliced out of the already-read block and
its checksum matches. -/
theorem read_eq_fast (h1 : reader bs (offset * PAD % U32) = (block, e1))
    (h16 : 16 ≤ block.length)
    (hm : ((block.take 16).drop 8).take 4 = MAGIC)
    (hh : le32 ((block.take 16).drop 12) = Hash ((block.take 16).take 12) % U32)
    (hfast : le32 (block.take 16) < block.length - 16)
    (hd : le32 ((block.take 16).drop 4) =
      Hash ((block.drop 16).take (le32 (block.take 16))) % U32) :
    ReadFromReader Hash MAGIC PAD reader offset bs =
      ⟨some ((block.drop 16).take (le32 (block.take 16))),
        (offset + (16 + le32 (block.take 16) + (PAD - 1)) % U32 / PAD) % U32,
        none⟩ := by
  simp only [ReadFromReader, h1]
  simp [Nat.not_lt.2 h16, hm, hh, hfast, hd]

/-- Slow-path exit when the second positional read reports an error: that
error is returned as is. -/
theorem read_eq_slow_err {bytes2 : List Nat} {e : Err}
    (h1 : reader bs (offset * PAD % U32) = (block, e1))
    (h16 : 16 ≤ block.length)
    (hm : ((block.take 16).drop 8).take 4 = MAGIC)
    (hh : le32 ((block.take 16).drop 12) = Hash ((block.take 16).take 12) % U32)
    (hslow : ¬ le32 (block.take 16) < block.length - 16)
    (h2 : reader (le32 (block.take 16)) (offset * PAD % U32 + 16) = (bytes2, some e)) :
    ReadFromReader Hash MAGIC PAD reader offset bs = ⟨none, 0, some e⟩ := by
  simp only [ReadFromReader, h1]
  simp [Nat.not_lt.2 h16, hm, hh, hslow, h2]

/-- Slow-path exit when the second positional read succeeds and the payload
checksum matches. -/
theorem read_eq_slow_ok {bytes2 : List Nat}
    (h1 : reader bs (offset * PAD % U32) = (block, e1))
    (h16 : 16 ≤ block.length)
    (hm : ((block.take 16).drop 8).take 4 = MAGIC)
    (hh : le32 ((block.take 16).drop 12) = Hash ((block.take 16).take 12) % U32)
    (hslow : ¬ le32 (block.take 16) < block.length - 16)
    (h2 : reader (le32 (block.take 16)) (offset * PAD % U32 + 16) = (bytes2, none))
    (hd : le32 ((block.take 16).drop 4) =
      Hash (bytes2.take (le32 (block.take 16)) ++
        List.replicate (le32 (block.take 16) - bytes2.length) 0) % U32) :
    ReadFromReader Hash MAGIC PAD reader offset bs =
      ⟨some (bytes2.take (le32 (block.take 16)) ++
          List.replicate (le32 (block.take 16) - bytes2.length) 0),
        (offset + (16 + le32 (block.take 16) + (PAD - 1)) % U32 / PAD) % U32,
        none⟩ := by
  simp only [ReadFromReader, h1]
  simp [Nat.not_lt.2 h16, hm, hh, hslow, h2, hd]

/-- Exit taken when the payload checksum disagrees, fast path. -/
theorem read_eq_datack_fail_fast
    (h1 : reader bs (offset * PAD % U32) = (block, e1))
    (h16 : 16 ≤ block.length)
    (hm : ((block.take 16).drop 8).take 4 = MAGIC)
    (hh : le32 ((block.take 16).drop 12) = Hash ((block.take 16).take 12) % U32)
    (hfast : le32 (block.take 16) < block.length - 16)
    (hd : le32 ((block.take 16).drop 4) ≠
      Hash ((block.drop 16).take (le32 (block.take 16))) % U32) :
    ReadFromReader Hash MAGIC PAD reader offset bs =
      ⟨none, 0, some Err.ebadslt⟩ := by
  simp only [ReadFromReader, h1]
  simp [Nat.not_lt.2 h16, hm, hh, hfast, hd]

/-- Exit taken when the payload checksum disagrees, slow path. -/
theorem read_eq_datack_fail_slow {bytes2 : List Nat}
    (h1 : reader bs (offset * PAD % U32) = (block, e1))
    (h16 : 16 ≤ block.length)
    (hm : ((block.take 16).drop 8).take 4 = MAGIC)
    (hh : le32 ((block.take 16).drop 12) = Hash ((block.take 16).take 12) % U32)
    (hslow : ¬ le32 (block.take 16) < block.length - 16)
    (h2 : reader (le32 (block.take 16)) (offset * PAD % U32 + 16) = (bytes2, none))
    (hd : le32 ((block.take 16).drop 4) ≠
      Hash (bytes2.take (le32 (block.take 16)) ++
        List.replicate (le32 (block.take 16) - bytes2.length) 0) % U32) :
    ReadFromReader Hash MAGIC PAD reader offset bs =
      ⟨none, 0, some Err.ebadslt⟩ := by
  simp only [ReadFromReader, h1]
  simp [Nat.not_lt.2 h16, hm, hh, hslow, h2, hd]

end Unfold

/-! Little-endian encode/decode facts. -/

theorem le32_le32enc (x : Nat) : le32 (le32enc x) = x % U32 := by
  simp [le32, le32enc, U32]
  omega

theorem le32_le32enc_append (x : Nat) (r : List Nat) :
    le32 (le32enc x ++ r) = x % U32 := by
  simp [le32, le32enc, U32]
  omega

theorem drop4_le32enc_append (x : Nat) (r : List Nat) :
    (le32enc x ++ r).drop 4 = r := by
  simp [le32enc]

theorem length_le32enc (x : Nat) : (le32enc x).length = 4 := by
  simp [le32enc]

theorem le32_lt (bs : List Nat) : le32 bs < U32 := by
  simp only [le32, U32]
  omega

/-- Reading a record laid out per the file format at the byte position the
(wrapping) offset arithmetic addresses yields exactly the original payload
and the padded next offset, provided none of the `uint32` computations
wrap. -/
theorem readFromReader_valid (Hash : List Nat → Nat) (MAGIC : List Nat)
    (PAD bs offset : Nat) (payload pre suf : List Nat)
    (hM : MAGIC.length = 4) (hbs : 16 ≤ bs)
    (hpre : pre.length = offset * PAD)
    (hpos : offset * PAD < U32)
    (hn1 : 16 + payload.length + (PAD - 1) < U32)
    (hn2 : offset + (16 + payload.length + (PAD - 1)) / PAD < U32) :
    ReadFromReader Hash MAGIC PAD
      (fileReadAt (pre ++ (encodeRecord Hash MAGIC payload ++ suf))) offset bs =
      ⟨some payload, offset + (16 + payload.length + (PAD - 1)) / PAD, none⟩ := by
  have hL : payload.length < U32 := by omega
  set P12 := le32enc payload.length ++ (le32enc (Hash payload % U32) ++ MAGIC)
    with hP12def
  have hP12len : P12.length = 12 := by
    simp [hP12def, le32enc, hM]
  set HDR := P12 ++ le32enc (Hash P12 % U32) with hHDRdef
  have hHDRlen : HDR.length = 16 := by
    simp [hHDRdef, hP12len, le32enc]
  have hsplit : encodeRecord Hash MAGIC payload ++ suf =
      HDR ++ (payload ++ suf) := by
    simp [encodeRecord, hHDRdef, hP12def, List.append_assoc]
  have hposeq : offset * PAD % U32 = pre.length := by
    rw [Nat.mod_eq_of_lt hpos, hpre]
  set FILE := pre ++ (encodeRecord Hash MAGIC payload ++ suf) with hFILEdef
  have hdropfile : FILE.drop (offset * PAD % U32) = HDR ++ (payload ++ suf) := by
    rw [hFILEdef, hposeq, List.drop_left, hsplit]
  set REST := HDR ++ (payload ++ suf) with hRESTdef
  have hRESTlen : REST.length = 16 + (payload.length + suf.length) := by
    simp [hRESTdef, hHDRlen]
  have h1 : fileReadAt FILE bs (offset * PAD % U32) =
      (REST.take bs,
        if (REST.take bs).length = bs then none else some Err.eof) := by
    simp only [fileReadAt, hdropfile]
  have hblock16 : 16 ≤ (REST.take bs).length := by
    rw [List.length_take]
    omega
  have hheader : (REST.take bs).take 16 = HDR := by
    rw [List.take_take, Nat.min_eq_left hbs, hRESTdef, List.take_left' hHDRlen]
  have hmagic : (((REST.take bs).take 16).drop 8).take 4 = MAGIC := by
    rw [hheader]
    have h8 : HDR.drop 8 = MAGIC ++ le32enc (Hash P12 % U32) := by
      rw [hHDRdef, hP12def]
      simp [le32enc]
    rw [h8, List.take_left' hM]
  have hhc : le32 (((REST.take bs).take 16).drop 12) =
      Hash (((REST.take bs).take 16).take 12) % U32 := by
    rw [hheader, hHDRdef, List.drop_left' hP12len, List.take_left' hP12len,
      le32_le32enc, Nat.mod_mod_of_dvd _ dvd_rfl]
  have hmlen : le32 ((REST.take bs).take 16) = payload.length := by
    rw [hheader, hHDRdef, hP12def, List.append_assoc, le32_le32enc_append,
      Nat.mod_eq_of_lt hL]
  have hdatack : le32 (((REST.take bs).take 16).drop 4) = Hash payload % U32 := by
    rw [hheader, hHDRdef, hP12def, List.append_assoc, List.append_assoc,
      drop4_le32enc_append, le32_le32enc_append, Nat.mod_mod_of_dvd _ dvd_rfl]
  by_cases hfast : le32 ((REST.take bs).take 16) < (REST.take bs).length - 16
  · -- fast path: the payload is sliced out of the block already read
    have hslice : ((REST.take bs).drop 16).take payload.length = payload := by
      rw [List.drop_take, hRESTdef, List.drop_left' hHDRlen, List.take_take]
      have hble : payload.length ≤ bs - 16 := by
        rw [hmlen] at hfast
        rw [List.length_take] at hfast
        omega
      rw [Nat.min_eq_left hble, List.take_left]
    rw [read_eq_fast h1 hblock16 hmagic hhc hfast (by rw [hmlen, hslice, hdatack]),
      hmlen, hslice, Nat.mod_eq_of_lt hn1, Nat.mod_eq_of_lt hn2]
  · -- slow path: the payload is fetched by a second positional read
    have hdrop16 : FILE.drop (offset * PAD % U32 + 16) = payload ++ suf := by
      rw [← List.drop_drop, hdropfile, hRESTdef, List.drop_left' hHDRlen]
    have h2 : fileReadAt FILE (le32 ((REST.take bs).take 16))
        (offset * PAD % U32 + 16) = (payload, none) := by
      simp only [fileReadAt, hdrop16, hmlen, List.take_left]
      simp
    have hri : payload.take (le32 ((REST.take bs).take 16)) ++
        List.replicate (le32 ((REST.take bs).take 16) - payload.length) 0 =
        payload := by
      rw [hmlen, List.take_length, Nat.sub_self, List.replicate_zero,
        List.append_nil]
    rw [read_eq_slow_ok h1 hblock16 hmagic hhc hfast h2 (by rw [hri, hdatack]),
      hri, hmlen, Nat.mod_eq_of_lt hn1, Nat.mod_eq_of_lt hn2]

/-- C1 (amended): for every record laid out per the §6 file format starting
at byte position `offset*PAD`, `read(offset)` succeeds and returns exactly
the original payload bytes and `next_offset = offset + ceil((16 +
metadata_length) / PAD)` — provided the `uint32` computations of the byte
position and of the next offset do not wrap (`offset*PAD < 2^32` and the
computed next offset `< 2^32`). -/
theorem c1_read_valid_record (Hash : List Nat → Nat) (MAGIC : List Nat)
    (PAD bs offset : Nat) (payload pre suf : List Nat)
    (hM : MAGIC.length = 4) (hbs : 16 ≤ bs)
    (hpre : pre.length = offset * PAD)
    (hpos : offset * PAD < U32)
    (hn1 : 16 + payload.length + (PAD - 1) < U32)
    (hn2 : offset + (16 + payload.length + (PAD - 1)) / PAD < U32) :
    ReadFromReader Hash MAGIC PAD
      (fileReadAt (pre ++ (encodeRecord Hash MAGIC payload ++ suf))) offset bs =
      ⟨some payload, offset + (16 + payload.length + (PAD - 1)) / PAD, none⟩ :=
  readFromReader_valid Hash MAGIC PAD bs offset payload pre suf hM hbs hpre
    hpos hn1 hn2

/-- Witness for C1: a concrete three-byte record at offset 0 with `PAD = 16`
and `block_size = 4096` reads back as itself with next offset
`ceil(19/16) = 2`. -/
theorem c1_read_valid_record_witness :
    ReadFromReader Hash0 MAGIC0 16
      (fileReadAt ([] ++ (encodeRecord Hash0 MAGIC0 [1, 2, 3] ++ []))) 0 4096 =
      ⟨some [1, 2, 3], 0 + (16 + [1, 2, 3].length + (16 - 1)) / 16, none⟩ :=
  c1_read_valid_record Hash0 MAGIC0 16 4096 0 [1, 2, 3] [] [] (by decide)
    (by decide) (by decide) (by decide) (by decide) (by decide)

/-- Counterexample to C1 as stated: a fully §6-conformant record (empty
payload, correct magic and checksums) placed at byte position
`offset*PAD = 2^28 * 16 = 2^32`.  The record really is at that byte
position (second conjunct), yet `read(2^28)` does not succeed: the `uint32`
multiplication wraps to byte 0 and the zero bytes found there fail the
magic check, so the read reports a checksum mismatch. -/
theorem c1_counterexample :
    268435456 * 16 = (List.replicate U32 (0 : Nat)).length ∧
    (List.replicate U32 (0 : Nat) ++ encodeRecord Hash0 MAGIC0 []).drop
      (268435456 * 16) = encodeRecord Hash0 MAGIC0 [] ∧
    ReadFromReader Hash0 MAGIC0 16
      (fileReadAt (List.replicate U32 (0 : Nat) ++ encodeRecord Hash0 MAGIC0 []))
      268435456 4096 = ⟨none, 0, some Err.ebadslt⟩ := by
  have hlen : 268435456 * 16 = (List.replicate U32 (0 : Nat)).length := by
    rw [List.length_replicate]
    norm_num [U32]
  refine ⟨hlen, List.drop_left' hlen.symm, ?_⟩
  have hpos0 : 268435456 * 16 % U32 = 0 := by norm_num [U32]
  have htake : (List.replicate U32 (0 : Nat) ++ encodeRecord Hash0 MAGIC0 []).take
      4096 = List.replicate 4096 0 := by
    rw [List.take_append_of_le_length (by rw [List.length_replicate]; norm_num [U32]),
      List.take_replicate, Nat.min_eq_left (by norm_num [U32])]
  have h1 : fileReadAt (List.replicate U32 (0 : Nat) ++ encodeRecord Hash0 MAGIC0 [])
      4096 (268435456 * 16 % U32) = (List.replicate 4096 0, none) := by
    simp only [fileReadAt, hpos0, List.drop_zero, htake, List.length_replicate]
    simp only [if_true, eq_self_iff_true]
  have h16b : 16 ≤ (List.replicate 4096 (0 : Nat)).length := by
    rw [List.length_replicate]
    norm_num
  have hmg : (((List.replicate 4096 (0 : Nat)).take 16).drop 8).take 4 ≠ MAGIC0 := by
    decide
  rw [read_eq_magic_fail h1 h16b hmg]

/-- C7: at the failing input `offset = 2^28`, `PAD = 16` the single
positional read issued by `ReadFromReader` addresses byte position 0, not
`offset * PAD = 2^32`: the multiplication `offset*PAD` is performed in
`uint32` and wraps before the widening `int64(...)` conversion. -/
theorem c7_offset_arithmetic_wraps :
    readCalls Hash0 MAGIC0 16 (fileReadAt []) 268435456 16 = [(16, 0)] ∧
    268435456 * 16 = U32 := by
  constructor
  · decide
  · norm_num [U32]

/-- C9: constructing a handle with a positive `block_size` below 16 fails
with the invalid-argument error independently of the file-open outcome, and
`block_size = 0` constructs exactly the same handle as `block_size = 16`. -/
theorem c9_newReader_blockSize (openR : Except Err Unit) (b : Int)
    (h1 : 1 ≤ b) (h2 : b < 16) :
    NewReader openR b = Except.error Err.einval ∧
    NewReader openR 0 = NewReader openR 16 := by
  constructor
  · have hb0 : ¬ b = 0 := by omega
    simp [NewReader, hb0, h2]
  · simp [NewReader]

/-- Witness for C9 at `block_size = 7`. -/
theorem c9_newReader_blockSize_witness :
    NewReader (Except.ok ()) 7 = Except.error Err.einval ∧
    NewReader (Except.ok ()) 0 = NewReader (Except.ok ()) 16 :=
  c9_newReader_blockSize (Except.ok ()) 7 (by decide) (by decide)

/-- C10: whenever `ReadFromReader` returns an error — corrupt, end-of-data
or any I/O failure — the returned payload is the nil slice and the returned
next offset is 0. -/
theorem c10_error_returns_nothing (Hash : List Nat → Nat) (MAGIC : List Nat)
    (PAD : Nat) (reader : ReaderAt) (offset bs : Nat)
    (h : (ReadFromReader Hash MAGIC PAD reader offset bs).err ≠ none) :
    (ReadFromReader Hash MAGIC PAD reader offset bs).data = none ∧
    (ReadFromReader Hash MAGIC PAD reader offset bs).next = 0 := by
  rcases hrd : reader bs (offset * PAD % U32) with ⟨bytes1, e1⟩
  by_cases h16 : bytes1.length < 16
  · rw [read_eq_short hrd h16]
    exact ⟨rfl, rfl⟩
  · have h16' : 16 ≤ bytes1.length := Nat.not_lt.1 h16
    by_cases hm : ((bytes1.take 16).drop 8).take 4 = MAGIC
    · by_cases hh : le32 ((bytes1.take 16).drop 12) =
        Hash ((bytes1.take 16).take 12) % U32
      · by_cases hfast : le32 (bytes1.take 16) < bytes1.length - 16
        · by_cases hd : le32 ((bytes1.take 16).drop 4) =
            Hash ((bytes1.drop 16).take (le32 (bytes1.take 16))) % U32
          · exact absurd (by rw [read_eq_fast hrd h16' hm hh hfast hd]) h
          · rw [read_eq_datack_fail_fast hrd h16' hm hh hfast hd]
            exact ⟨rfl, rfl⟩
        · rcases hrd2 : reader (le32 (bytes1.take 16)) (offset * PAD % U32 + 16)
            with ⟨bytes2, e2⟩
          cases e2 with
          | some e =>
            rw [read_eq_slow_err hrd h16' hm hh hfast hrd2]
            exact ⟨rfl, rfl⟩
          | none =>
            by_cases hd : le32 ((bytes1.take 16).drop 4) =
              Hash (bytes2.take (le32 (bytes1.take 16)) ++
                List.replicate (le32 (bytes1.take 16) - bytes2.length) 0) % U32
            · exact absurd (by rw [read_eq_slow_ok hrd h16' hm hh hfast hrd2 hd]) h
            · rw [read_eq_datack_fail_slow hrd h16' hm hh hfast hrd2 hd]
              exact ⟨rfl, rfl⟩
      · rw [read_eq_hdrck_fail hrd h16' hm hh]
        exact ⟨rfl, rfl⟩
    · rw [read_eq_magic_fail hrd h16' hm]
      exact ⟨rfl, rfl⟩

/-- C2: provided a candidate record is present (at least 16 bytes at the
addressed position) and its claimed payload lies within the file,
`ReadFromReader` returns the checksum-mismatch error `EBADSLT` if and only
if the magic check, the header-checksum check or the data-checksum check
fails, and returns success if and only if all three hold. -/
theorem c2_corrupt_iff_checks_fail (Hash : List Nat → Nat) (MAGIC : List Nat)
    (PAD bs offset : Nat) (file : List Nat) (pos : Nat)
    (hpos : pos = offset * PAD % U32)
    (h16 : 16 ≤ ((file.drop pos).take bs).length)
    (havail : pos + 16 + le32 ((file.drop pos).take 16) ≤ file.length) :
    ((ReadFromReader Hash MAGIC PAD (fileReadAt file) offset bs).err =
        some Err.ebadslt ↔
      ¬((((file.drop pos).take 16).drop 8).take 4 = MAGIC ∧
        le32 (((file.drop pos).take 16).drop 12) =
          Hash (((file.drop pos).take 16).take 12) % U32 ∧
        le32 (((file.drop pos).take 16).drop 4) =
          Hash ((file.drop (pos + 16)).take (le32 ((file.drop pos).take 16))) %
            U32)) ∧
    ((ReadFromReader Hash MAGIC PAD (fileReadAt file) offset bs).err = none ↔
      ((((file.drop pos).take 16).drop 8).take 4 = MAGIC ∧
        le32 (((file.drop pos).take 16).drop 12) =
          Hash (((file.drop pos).take 16).take 12) % U32 ∧
        le32 (((file.drop pos).take 16).drop 4) =
          Hash ((file.drop (pos + 16)).take (le32 ((file.drop pos).take 16))) %
            U32)) := by
  subst hpos
  set pos := offset * PAD % U32 with hposdef
  set block := (file.drop pos).take bs with hblock
  have hlb : block.length ≤ bs := by
    rw [hblock, List.length_take]
    exact Nat.min_le_left _ _
  have hbs16 : 16 ≤ bs := le_trans h16 hlb
  have hdr16 : block.take 16 = (file.drop pos).take 16 := by
    rw [hblock, List.take_take, Nat.min_eq_left hbs16]
  rw [← hdr16] at havail ⊢
  have h1 : fileReadAt file bs pos =
      (block, if block.length = bs then none else some Err.eof) := by
    simp only [fileReadAt, ← hblock]
  have hgen : ∀ k, k ≤ bs - 16 →
      (block.drop 16).take k = (file.drop (pos + 16)).take k := by
    intro k hk
    rw [hblock, List.drop_take, List.drop_drop, List.take_take,
      Nat.min_eq_left hk]
  have h2 : fileReadAt file (le32 (block.take 16)) (pos + 16) =
      ((file.drop (pos + 16)).take (le32 (block.take 16)), none) := by
    simp only [fileReadAt]
    have : ((file.drop (pos + 16)).take (le32 (block.take 16))).length =
        le32 (block.take 16) := by
      rw [List.length_take, List.length_drop]
      omega
    rw [if_pos this]
  have hslowpay : ((file.drop (pos + 16)).take (le32 (block.take 16))).take
        (le32 (block.take 16)) ++
      List.replicate (le32 (block.take 16) -
        ((file.drop (pos + 16)).take (le32 (block.take 16))).length) 0 =
      (file.drop (pos + 16)).take (le32 (block.take 16)) := by
    have hl : ((file.drop (pos + 16)).take (le32 (block.take 16))).length =
        le32 (block.take 16) := by
      rw [List.length_take, List.length_drop]
      omega
    rw [List.take_of_length_le (le_of_eq hl), hl, Nat.sub_self,
      List.replicate_zero, List.append_nil]
  by_cases hm : ((block.take 16).drop 8).take 4 = MAGIC
  · by_cases hh : le32 ((block.take 16).drop 12) =
      Hash ((block.take 16).take 12) % U32
    · by_cases hfast : le32 (block.take 16) < block.length - 16
      · have hpay : (block.drop 16).take (le32 (block.take 16)) =
            (file.drop (pos + 16)).take (le32 (block.take 16)) :=
          hgen _ (by omega)
        by_cases hd : le32 ((block.take 16).drop 4) =
          Hash ((file.drop (pos + 16)).take (le32 (block.take 16))) % U32
        · rw [read_eq_fast h1 h16 hm hh hfast (by rw [hpay]; exact hd)]
          simp [hm, hh, hd]
        · rw [read_eq_datack_fail_fast h1 h16 hm hh hfast (by rw [hpay]; exact hd)]
          simp [hm, hh, hd]
      · by_cases hd : le32 ((block.take 16).drop 4) =
          Hash ((file.drop (pos + 16)).take (le32 (block.take 16))) % U32
        · rw [read_eq_slow_ok h1 h16 hm hh hfast h2 (by rw [hslowpay]; exact hd)]
          simp [hm, hh, hd]
        · rw [read_eq_datack_fail_slow h1 h16 hm hh hfast h2
            (by rw [hslowpay]; exact hd)]
          simp [hm, hh, hd]
    · rw [read_eq_hdrck_fail h1 h16 hm hh]
      simp [hm, hh]
  · rw [read_eq_magic_fail h1 h16 hm]
    simp [hm]

/-- Witness for C2: a well-formed one-byte record at offset 0, where all
three checks hold and the read indeed succeeds. -/
theorem c2_corrupt_iff_checks_fail_witness :
    ((ReadFromReader Hash0 MAGIC0 16 (fileReadAt (encodeRecord Hash0 MAGIC0 [7]))
        0 16).err = some Err.ebadslt ↔
      ¬(((((encodeRecord Hash0 MAGIC0 [7]).drop 0).take 16).drop 8).take 4 =
          MAGIC0 ∧
        le32 ((((encodeRecord Hash0 MAGIC0 [7]).drop 0).take 16).drop 12) =
          Hash0 ((((encodeRecord Hash0 MAGIC0 [7]).drop 0).take 16).take 12) %
            U32 ∧
        le32 ((((encodeRecord Hash0 MAGIC0 [7]).drop 0).take 16).drop 4) =
          Hash0 (((encodeRecord Hash0 MAGIC0 [7]).drop (0 + 16)).take
            (le32 (((encodeRecord Hash0 MAGIC0 [7]).drop 0).take 16))) % U32)) ∧
    ((ReadFromReader Hash0 MAGIC0 16 (fileReadAt (encodeRecord Hash0 MAGIC0 [7]))
        0 16).err = none ↔
      ((((encodeRecord Hash0 MAGIC0 [7]).drop 0).take 16).drop 8).take 4 =
          MAGIC0 ∧
        le32 ((((encodeRecord Hash0 MAGIC0 [7]).drop 0).take 16).drop 12) =
          Hash0 ((((encodeRecord Hash0 MAGIC0 [7]).drop 0).take 16).take 12) %
            U32 ∧
        le32 ((((encodeRecord Hash0 MAGIC0 [7]).drop 0).take 16).drop 4) =
          Hash0 (((encodeRecord Hash0 MAGIC0 [7]).drop (0 + 16)).take
            (le32 (((encodeRecord Hash0 MAGIC0 [7]).drop 0).take 16))) % U32) :=
  c2_corrupt_iff_checks_fail Hash0 MAGIC0 16 16 0 (encodeRecord Hash0 MAGIC0 [7])
    0 (by decide) (by decide) (by decide)

/-- Witness for C10: a read past the end of an empty file errors and indeed
returns a nil payload and next offset 0. -/
theorem c10_error_returns_nothing_witness :
    (ReadFromReader Hash0 MAGIC0 16 (fileReadAt []) 0 16).err ≠ none ∧
    (ReadFromReader Hash0 MAGIC0 16 (fileReadAt []) 0 16).data = none ∧
    (ReadFromReader Hash0 MAGIC0 16 (fileReadAt []) 0 16).next = 0 :=
  ⟨by decide, c10_error_returns_nothing Hash0 MAGIC0 16 (fileReadAt []) 0 16
    (by decide)⟩

/-! Step lemmas for the scan loop, one per outcome of the probe. -/

section ScanStep

variable {Hash : List Nat → Nat} {MAGIC : List Nat} {PAD : Nat}
variable {reader : ReaderAt} {bs : Nat}
variable {cb : List Nat → Nat → Nat → Option Err} {fuel o : Nat}

/-- A probe reporting end-of-data ends the scan successfully. -/
theorem scan_eq_eof
    (h : (ReadFromReader Hash MAGIC PAD reader o bs).err = some Err.eof) :
    ScanFromReader Hash MAGIC PAD reader bs cb (fuel + 1) o =
      ([], ScanEnd.done none) := by
  simp only [ScanFromReader, h]
  simp

/-- A probe reporting a checksum mismatch advances the cursor by one offset
unit (in `uint32` arithmetic) and retries. -/
theorem scan_eq_corrupt
    (h : (ReadFromReader Hash MAGIC PAD reader o bs).err = some Err.ebadslt) :
    ScanFromReader Hash MAGIC PAD reader bs cb (fuel + 1) o =
      ScanFromReader Hash MAGIC PAD reader bs cb fuel ((o + 1) % U32) := by
  simp only [ScanFromReader, h]
  simp

/-- Any other probe error ends the scan with that error. -/
theorem scan_eq_other {e : Err}
    (h : (ReadFromReader Hash MAGIC PAD reader o bs).err = some e)
    (h1 : e ≠ Err.eof) (h2 : e ≠ Err.ebadslt) :
    ScanFromReader Hash MAGIC PAD reader bs cb (fuel + 1) o =
      ([], ScanEnd.done (some e)) := by
  simp only [ScanFromReader, h]
  simp [h1, h2]

/-- A successful probe whose callback fails ends the scan with the
callback's error, after the one recorded invocation. -/
theorem scan_eq_ok_stop {e : Err}
    (h : (ReadFromReader Hash MAGIC PAD reader o bs).err = none)
    (hcb : cb ((ReadFromReader Hash MAGIC PAD reader o bs).data.getD []) o
      ((ReadFromReader Hash MAGIC PAD reader o bs).next) = some e) :
    ScanFromReader Hash MAGIC PAD reader bs cb (fuel + 1) o =
      ([((ReadFromReader Hash MAGIC PAD reader o bs).data.getD [], o,
        (ReadFromReader Hash MAGIC PAD reader o bs).next)],
        ScanEnd.done (some e)) := by
  simp only [ScanFromReader, h]
  simp [hcb]

/-- A successful probe whose callback succeeds records the invocation and
continues from the returned next offset. -/
theorem scan_eq_ok_cont
    (h : (ReadFromReader Hash MAGIC PAD reader o bs).err = none)
    (hcb : cb ((ReadFromReader Hash MAGIC PAD reader o bs).data.getD []) o
      ((ReadFromReader Hash MAGIC PAD reader o bs).next) = none) :
    ScanFromReader Hash MAGIC PAD reader bs cb (fuel + 1) o =
      (((ReadFromReader Hash MAGIC PAD reader o bs).data.getD [], o,
          (ReadFromReader Hash MAGIC PAD reader o bs).next) ::
        (ScanFromReader Hash MAGIC PAD reader bs cb fuel
          ((ReadFromReader Hash MAGIC PAD reader o bs).next)).1,
        (ScanFromReader Hash MAGIC PAD reader bs cb fuel
          ((ReadFromReader Hash MAGIC PAD reader o bs).next)).2) := by
  simp only [ScanFromReader, h]
  simp [hcb]

end ScanStep

/-- Skipping a corrupt run: if every offset in `[a, a+k)` probes as corrupt,
the scan from `a` with `k` extra fuel steps reaches `a + k` unchanged. -/
theorem scan_skip_run (Hash : List Nat → Nat) (MAGIC : List Nat) (PAD : Nat)
    (reader : ReaderAt) (bs : Nat) (cb : List Nat → Nat → Nat → Option Err) :
    ∀ (k a fuel : Nat),
    (∀ o, a ≤ o → o < a + k →
      (ReadFromReader Hash MAGIC PAD reader o bs).err = some Err.ebadslt) →
    a + k < U32 →
    ScanFromReader Hash MAGIC PAD reader bs cb (k + fuel) a =
      ScanFromReader Hash MAGIC PAD reader bs cb fuel (a + k) := by
  intro k
  induction k with
  | zero =>
    intro a fuel _ _
    simp
  | succ k ih =>
    intro a fuel hrun hlt
    have hc : (ReadFromReader Hash MAGIC PAD reader a bs).err =
        some Err.ebadslt := hrun a le_rfl (by omega)
    have hshift : k + 1 + fuel = (k + fuel) + 1 := by omega
    rw [hshift, scan_eq_corrupt hc, Nat.mod_eq_of_lt (by omega)]
    have hleft := ih (a + 1) fuel
      (fun o h1 h2 => hrun o (by omega) (by omega)) (by omega)
    rw [hleft]
    have : a + 1 + k = a + (k + 1) := by omega
    rw [this]

/-- Bounds carried by a layout derivation: the cursor start is at most the
end marker, and the end marker is a representable offset. -/
theorem layout_bounds {Hash : List Nat → Nat} {MAGIC : List Nat} {PAD : Nat}
    {reader : ReaderAt} {bs : Nat} {a : Nat}
    {rs : List (List Nat × Nat × Nat)} {E : Nat}
    (h : Layout Hash MAGIC PAD reader bs a rs E) : a ≤ E ∧ E < U32 := by
  induction h with
  | nil a E haE hE hrun heof => exact ⟨haE, hE⟩
  | cons a o p n rs E hao hon hrun hok htail ih => exact ⟨by omega, ih.2⟩

/-- A scan whose callback never returns the checksum-mismatch error never
ends with that error: corrupt probes are always recovered internally. -/
theorem scan_no_ebadslt_result {Hash : List Nat → Nat} {MAGIC : List Nat}
    {PAD : Nat} {reader : ReaderAt} {bs : Nat}
    {cb : List Nat → Nat → Nat → Option Err}
    (hcb : ∀ d x y, cb d x y ≠ some Err.ebadslt) :
    ∀ f o, (ScanFromReader Hash MAGIC PAD reader bs cb f o).2 ≠
      ScanEnd.done (some Err.ebadslt) := by
  intro f
  induction f with
  | zero =>
    intro o hcontra
    exact ScanEnd.noConfusion hcontra
  | succ f ih =>
    intro o
    rcases herr : (ReadFromReader Hash MAGIC PAD reader o bs).err with _ | e
    · rcases hc : cb ((ReadFromReader Hash MAGIC PAD reader o bs).data.getD [])
        o ((ReadFromReader Hash MAGIC PAD reader o bs).next) with _ | e2
      · rw [scan_eq_ok_cont herr hc]
        exact ih _
      · rw [scan_eq_ok_stop herr hc]
        intro hcontra
        have he2 : e2 = Err.ebadslt := by
          simpa using hcontra
        rw [he2] at hc
        exact hcb _ _ _ hc
    · cases e with
      | eof =>
        rw [scan_eq_eof herr]
        simp
      | ebadslt =>
        rw [scan_eq_corrupt herr]
        exact ih _
      | einval =>
        rw [scan_eq_other herr (by simp) (by simp)]
        simp
      | ioErr c =>
        rw [scan_eq_other herr (by simp) (by simp)]
        simp

/-- C3: when the probe at offset `o` reports a checksum mismatch, the very
next probe of the scan is at `o + 1` (one `PAD`-unit further); the scanner
never probes the same offset twice in a row after a corrupt outcome, and a
corrupt outcome is never the scan's own result. -/
theorem c3_corrupt_advances_one (Hash : List Nat → Nat) (MAGIC : List Nat)
    (PAD : Nat) (reader : ReaderAt) (bs : Nat)
    (cb : List Nat → Nat → Nat → Option Err) (o fuel f o' : Nat)
    (hcorrupt : (ReadFromReader Hash MAGIC PAD reader o bs).err =
      some Err.ebadslt)
    (ho : o + 1 < U32)
    (hcb : ∀ d x y, cb d x y ≠ some Err.ebadslt) :
    ScanFromReader Hash MAGIC PAD reader bs cb (fuel + 1) o =
      ScanFromReader Hash MAGIC PAD reader bs cb fuel (o + 1) ∧
    o + 1 ≠ o ∧
    (ScanFromReader Hash MAGIC PAD reader bs cb f o').2 ≠
      ScanEnd.done (some Err.ebadslt) :=
  ⟨by rw [scan_eq_corrupt hcorrupt, Nat.mod_eq_of_lt ho], by omega,
    scan_no_ebadslt_result hcb f o'⟩

/-- Witness for C3: sixteen bytes of garbage probe as corrupt at offset 0
and the scan moves to offset 1. -/
theorem c3_corrupt_advances_one_witness :
    ScanFromReader Hash0 MAGIC0 16 (fileReadAt (List.replicate 16 1)) 16 cb0
        (0 + 1) 0 =
      ScanFromReader Hash0 MAGIC0 16 (fileReadAt (List.replicate 16 1)) 16 cb0
        0 (0 + 1) ∧
    0 + 1 ≠ 0 ∧
    (ScanFromReader Hash0 MAGIC0 16 (fileReadAt (List.replicate 16 1)) 16 cb0
      3 5).2 ≠ ScanEnd.done (some Err.ebadslt) :=
  c3_corrupt_advances_one Hash0 MAGIC0 16 (fileReadAt (List.replicate 16 1))
    16 cb0 0 0 3 5 (by decide) (by decide) (fun d x y => by simp [cb0])

/-- C4 (amended): over a file that is, to the scanner, K valid records
separated by arbitrary corrupt runs and ending in end-of-data at a
representable (below 2^32) offset, a scan with an error-free callback
invokes the callback exactly once per record, in ascending offset order,
with each record's payload, offset and next offset, and returns success. -/
theorem c4_scan_visits_exactly (Hash : List Nat → Nat) (MAGIC : List Nat)
    (PAD : Nat) (reader : ReaderAt) (bs : Nat)
    (cb : List Nat → Nat → Nat → Option Err) (a : Nat)
    (rs : List (List Nat × Nat × Nat)) (E : Nat)
    (h : Layout Hash MAGIC PAD reader bs a rs E)
    (hcb : ∀ d x y, cb d x y = none) :
    ∀ fuel, E + 1 + rs.length ≤ a + fuel →
    ScanFromReader Hash MAGIC PAD reader bs cb fuel a =
      (rs, ScanEnd.done none) := by
  induction h with
  | nil a E haE hE hrun heof =>
    intro fuel hfuel
    obtain ⟨f, rfl⟩ : ∃ f, fuel = (E - a) + (f + 1) :=
      ⟨fuel - (E - a) - 1, by simp at hfuel; omega⟩
    rw [scan_skip_run Hash MAGIC PAD reader bs cb (E - a) a (f + 1)
      (fun o h1 h2 => hrun o h1 (by omega)) (by omega)]
    have hae : a + (E - a) = E := by omega
    rw [hae, scan_eq_eof heof]
  | cons a o p n rs E hao hon hrun hok htail ih =>
    intro fuel hfuel
    have hb := layout_bounds htail
    simp only [List.length_cons] at hfuel
    obtain ⟨f, rfl⟩ : ∃ f, fuel = (o - a) + (f + 1) :=
      ⟨fuel - (o - a) - 1, by omega⟩
    rw [scan_skip_run Hash MAGIC PAD reader bs cb (o - a) a (f + 1)
      (fun o' h1 h2 => hrun o' h1 (by omega)) (by omega)]
    have hae : a + (o - a) = o := by omega
    rw [hae]
    have herr : (ReadFromReader Hash MAGIC PAD reader o bs).err = none := by
      rw [hok]
    rw [scan_eq_ok_cont herr (hcb _ _ _)]
    have hdata : (ReadFromReader Hash MAGIC PAD reader o bs).data.getD [] = p := by
      rw [hok]
      rfl
    have hnext : (ReadFromReader Hash MAGIC PAD reader o bs).next = n := by
      rw [hok]
    rw [hdata, hnext, ih f (by omega)]

/-- Witness for C4: a file holding the record `[1]` at offset 0, sixteen
corrupt bytes at offset 2 and the record `[2, 3]` at offset 3; the scan
reports exactly the two records, in order, and ends successfully. -/
theorem c4_scan_visits_exactly_witness :
    ScanFromReader Hash0 MAGIC0 16
      (fileReadAt (encodeRecord Hash0 MAGIC0 [1] ++
        (List.replicate 15 0 ++ (List.replicate 16 7 ++
          encodeRecord Hash0 MAGIC0 [2, 3])))) 4096 cb0 8 0 =
      ([([1], 0, 2), ([2, 3], 3, 5)], ScanEnd.done none) :=
  c4_scan_visits_exactly Hash0 MAGIC0 16
    (fileReadAt (encodeRecord Hash0 MAGIC0 [1] ++
      (List.replicate 15 0 ++ (List.replicate 16 7 ++
        encodeRecord Hash0 MAGIC0 [2, 3])))) 4096 cb0 0
    [([1], 0, 2), ([2, 3], 3, 5)] 5
    (Layout.cons 0 0 [1] 2 _ 5 le_rfl (by decide)
      (fun o' h1 h2 => absurd h2 (by omega)) (by decide)
      (Layout.cons 2 3 [2, 3] 5 _ 5 (by decide) (by decide)
        (fun o' h1 h2 => by
          have ho' : o' = 2 := by omega
          rw [ho']
          decide)
        (by decide)
        (Layout.nil 5 5 le_rfl (by decide)
          (fun o h1 h2 => absurd h2 (by omega)) (by decide))))
    (fun d x y => rfl) 8 (by decide)

/-- If every offset probes as corrupt, the scan never ends: any step budget
runs out with the loop still searching for a record. -/
theorem scan_timeout_of_all_corrupt {Hash : List Nat → Nat} {MAGIC : List Nat}
    {PAD : Nat} {reader : ReaderAt} {bs : Nat}
    {cb : List Nat → Nat → Nat → Option Err}
    (hall : ∀ o, (ReadFromReader Hash MAGIC PAD reader o bs).err =
      some Err.ebadslt) :
    ∀ f o, ScanFromReader Hash MAGIC PAD reader bs cb f o =
      ([], ScanEnd.timeout) := by
  intro f
  induction f with
  | zero => intro o; rfl
  | succ f ih =>
    intro o
    rw [scan_eq_corrupt (hall o)]
    exact ih _

/-- In a file of 2^32 `1`-bytes followed by a valid record, every probe is
corrupt: every `uint32`-wrapped byte position lands inside the garbage
prefix, so the scanner can never reach the record at byte 2^32. -/
theorem replicate_u32_append_all_corrupt (o : Nat) :
    (ReadFromReader Hash0 MAGIC0 16
      (fileReadAt (List.replicate U32 1 ++ encodeRecord Hash0 MAGIC0 [])) o
      16).err = some Err.ebadslt := by
  have hU : U32 = 4294967296 := rfl
  obtain ⟨c, hc⟩ : 16 ∣ o * 16 % U32 := by
    rw [hU]
    exact (Nat.dvd_mod_iff (by norm_num)).2 (dvd_mul_left 16 o)
  have hlt : o * 16 % U32 < U32 := Nat.mod_lt _ (by rw [hU]; norm_num)
  have h16le : 16 ≤ U32 - o * 16 % U32 := by omega
  have hdrop : (List.replicate U32 (1 : Nat) ++
      encodeRecord Hash0 MAGIC0 []).drop (o * 16 % U32) =
      List.replicate (U32 - o * 16 % U32) 1 ++ encodeRecord Hash0 MAGIC0 [] := by
    rw [List.drop_append_of_le_length (by rw [List.length_replicate]; omega),
      List.drop_replicate]
  have htake : (List.replicate (U32 - o * 16 % U32) (1 : Nat) ++
      encodeRecord Hash0 MAGIC0 []).take 16 = List.replicate 16 1 := by
    rw [List.take_append_of_le_length (by rw [List.length_replicate]; omega),
      List.take_replicate, Nat.min_eq_left h16le]
  have h1 : fileReadAt (List.replicate U32 1 ++ encodeRecord Hash0 MAGIC0 [])
      16 (o * 16 % U32) = (List.replicate 16 1, none) := by
    simp only [fileReadAt, hdrop, htake]
    simp
  rw [read_eq_magic_fail h1 (by simp) (by decide)]

/-- Counterexample to C4 as stated: a file holding a single fully
§6-conformant record at byte position 2^32 = 2^28 * PAD, preceded by 2^32
bytes of garbage.  The claim requires the scan to invoke the error-free
callback exactly once (K = 1), but even after 2^33 loop steps the scan has
invoked it zero times and is still running: every `uint32`-wrapped probe
position lands in the garbage prefix, so the record is unreachable and
end-of-data never comes. -/
theorem c4_counterexample :
    (List.replicate U32 (1 : Nat) ++ encodeRecord Hash0 MAGIC0 []).drop U32 =
      encodeRecord Hash0 MAGIC0 [] ∧
    ScanFromReader Hash0 MAGIC0 16
      (fileReadAt (List.replicate U32 1 ++ encodeRecord Hash0 MAGIC0 []))
      16 cb0 8589934592 0 = ([], ScanEnd.timeout) :=
  ⟨List.drop_left' (List.length_replicate _ _),
    scan_timeout_of_all_corrupt replicate_u32_append_all_corrupt _ _⟩

/-- In a 2^32-byte file of `1`-bytes every probe is corrupt: the wrapped
byte position always has at least 16 bytes of garbage available. -/
theorem replicate_u32_all_corrupt (o : Nat) :
    (ReadFromReader Hash0 MAGIC0 16 (fileReadAt (List.replicate U32 1)) o
      16).err = some Err.ebadslt := by
  have hU : U32 = 4294967296 := rfl
  obtain ⟨c, hc⟩ : 16 ∣ o * 16 % U32 := by
    rw [hU]
    exact (Nat.dvd_mod_iff (by norm_num)).2 (dvd_mul_left 16 o)
  have hlt : o * 16 % U32 < U32 := Nat.mod_lt _ (by rw [hU]; norm_num)
  have h16le : 16 ≤ U32 - o * 16 % U32 := by omega
  have hdrop : (List.replicate U32 (1 : Nat)).drop (o * 16 % U32) =
      List.replicate (U32 - o * 16 % U32) 1 := by
    rw [List.drop_replicate]
  have h1 : fileReadAt (List.replicate U32 1) 16 (o * 16 % U32) =
      (List.replicate 16 1, none) := by
    simp only [fileReadAt, hdrop]
    rw [List.take_replicate, Nat.min_eq_left h16le]
    simp
  rw [read_eq_magic_fail h1 (by simp) (by decide)]

/-- Counterexample to C8 as stated: an all-corrupt file of
`N = 2^28` `PAD`-units totalling 2^32 bytes.  The claim allows at most `N`
resync steps before the probe reports end-of-data and the scan returns
success, but after `N + 2` steps the loop is still running: the wrapped
`uint32` byte positions never leave the file, so end-of-data is never
reached. -/
theorem c8_counterexample :
    ScanFromReader Hash0 MAGIC0 16 (fileReadAt (List.replicate U32 1)) 16 cb0
        (268435456 + 2) 0 = ([], ScanEnd.timeout) ∧
    (List.replicate U32 (1 : Nat)).length = 268435456 * 16 :=
  ⟨scan_timeout_of_all_corrupt replicate_u32_all_corrupt _ _, by
    rw [List.length_replicate]
    norm_num [U32]⟩

/-- C8 (amended): over an empty or all-corrupt file of `N` `PAD`-units that
occupies fewer than 2^32 bytes, the scan terminates within `N` resync steps:
`N + 1` loop steps suffice to reach the end-of-data probe, and the scan
returns success. -/
theorem c8_scan_all_corrupt_terminates (Hash : List Nat → Nat)
    (MAGIC : List Nat) (PAD bs : Nat)
    (cb : List Nat → Nat → Nat → Option Err) (file : List Nat) (N : Nat)
    (hPAD : 16 ≤ PAD) (hbs : 16 ≤ bs)
    (hlen : file.length = N * PAD)
    (hwrap : N * PAD < U32)
    (hcor : ∀ o, o < N →
      (ReadFromReader Hash MAGIC PAD (fileReadAt file) o bs).err =
        some Err.ebadslt) :
    ∀ fuel, N + 1 ≤ fuel →
    ScanFromReader Hash MAGIC PAD (fileReadAt file) bs cb fuel 0 =
      ([], ScanEnd.done none) := by
  intro fuel hfuel
  have hN : N < U32 :=
    lt_of_le_of_lt (Nat.le_mul_of_pos_right N (by omega)) hwrap
  have heof : (ReadFromReader Hash MAGIC PAD (fileReadAt file) N bs).err =
      some Err.eof := by
    have h1 : fileReadAt file bs (N * PAD % U32) = ([], some Err.eof) := by
      rw [Nat.mod_eq_of_lt hwrap]
      simp only [fileReadAt]
      rw [List.drop_eq_nil_of_le (le_of_eq hlen), List.take_nil]
      simp only [List.length_nil]
      rw [if_neg (by omega)]
    rw [read_eq_short h1 (by decide)]
  obtain ⟨f, rfl⟩ : ∃ f, fuel = N + (f + 1) := ⟨fuel - N - 1, by omega⟩
  rw [scan_skip_run Hash MAGIC PAD (fileReadAt file) bs cb N 0 (f + 1)
    (fun o h1 h2 => hcor o (by omega)) (by omega)]
  have h0N : 0 + N = N := by omega
  rw [h0N, scan_eq_eof heof]

/-- Counterexample to C6 as stated: a file consisting of exactly one valid
16-byte header announcing a 100-byte payload that is not there.  Sixteen
bytes are available at the requested position (not fewer), yet the read
returns the end-of-data outcome: the second positional read for the payload
reports exhaustion and that error is returned. -/
theorem c6_counterexample :
    ((fileReadAt ((le32enc 100 ++ le32enc 0 ++ MAGIC0) ++
      le32enc (Hash0 (le32enc 100 ++ le32enc 0 ++ MAGIC0) % U32)) 16 0).1).length
      = 16 ∧
    (ReadFromReader Hash0 MAGIC0 16
      (fileReadAt ((le32enc 100 ++ le32enc 0 ++ MAGIC0) ++
        le32enc (Hash0 (le32enc 100 ++ le32enc 0 ++ MAGIC0) % U32))) 0 16).err =
      some Err.eof := by
  refine ⟨by decide, by decide⟩

/-- C6 (amended): a short first read (fewer than 16 bytes) propagates the
source's error verbatim, whatever it is; the end-of-data outcome arises
exactly when either the first read is short and the source reports
exhaustion, or the header checks pass, the payload does not lie strictly in
the block, and the second read reports exhaustion; and end-of-data is a
distinguishable error value. -/
theorem c6_eof_characterization (Hash : List Nat → Nat) (MAGIC : List Nat)
    (PAD : Nat) (reader : ReaderAt) (offset bs : Nat) :
    (((reader bs (offset * PAD % U32)).1).length < 16 →
      ReadFromReader Hash MAGIC PAD reader offset bs =
        ⟨none, 0, (reader bs (offset * PAD % U32)).2⟩) ∧
    ((ReadFromReader Hash MAGIC PAD reader offset bs).err = some Err.eof ↔
      ((((reader bs (offset * PAD % U32)).1).length < 16 ∧
        (reader bs (offset * PAD % U32)).2 = some Err.eof) ∨
       (16 ≤ ((reader bs (offset * PAD % U32)).1).length ∧
        ((((reader bs (offset * PAD % U32)).1).take 16).drop 8).take 4 = MAGIC ∧
        le32 ((((reader bs (offset * PAD % U32)).1).take 16).drop 12) =
          Hash ((((reader bs (offset * PAD % U32)).1).take 16).take 12) % U32 ∧
        ¬ le32 (((reader bs (offset * PAD % U32)).1).take 16) <
          ((reader bs (offset * PAD % U32)).1).length - 16 ∧
        (reader (le32 (((reader bs (offset * PAD % U32)).1).take 16))
          (offset * PAD % U32 + 16)).2 = some Err.eof))) ∧
    Err.eof ≠ Err.ebadslt ∧ Err.eof ≠ Err.ioErr 0 := by
  rcases hrd : reader bs (offset * PAD % U32) with ⟨bytes1, e1⟩
  simp only [hrd]
  refine ⟨fun h16 => by rw [read_eq_short hrd h16], ?_, by decide, by decide⟩
  by_cases h16 : bytes1.length < 16
  · rw [read_eq_short hrd h16]
    simp [h16, not_le.mpr h16]
  · have h16' : 16 ≤ bytes1.length := Nat.not_lt.1 h16
    by_cases hm : ((bytes1.take 16).drop 8).take 4 = MAGIC
    · by_cases hh : le32 ((bytes1.take 16).drop 12) =
        Hash ((bytes1.take 16).take 12) % U32
      · by_cases hfast : le32 (bytes1.take 16) < bytes1.length - 16
        · by_cases hd : le32 ((bytes1.take 16).drop 4) =
            Hash ((bytes1.drop 16).take (le32 (bytes1.take 16))) % U32
          · rw [read_eq_fast hrd h16' hm hh hfast hd]
            simp [h16, hfast]
          · rw [read_eq_datack_fail_fast hrd h16' hm hh hfast hd]
            simp [h16, hfast]
        · rcases hrd2 : reader (le32 (bytes1.take 16))
            (offset * PAD % U32 + 16) with ⟨bytes2, e2⟩
          cases e2 with
          | some e =>
            rw [read_eq_slow_err hrd h16' hm hh hfast hrd2]
            simp [h16, h16', hm, hh, hfast, hrd2]
          | none =>
            by_cases hd : le32 ((bytes1.take 16).drop 4) =
              Hash (bytes2.take (le32 (bytes1.take 16)) ++
                List.replicate (le32 (bytes1.take 16) - bytes2.length) 0) % U32
            · rw [read_eq_slow_ok hrd h16' hm hh hfast hrd2 hd]
              simp [h16, hrd2]
            · rw [read_eq_datack_fail_slow hrd h16' hm hh hfast hrd2 hd]
              simp [h16, hrd2]
      · rw [read_eq_hdrck_fail hrd h16' hm hh]
        simp [h16, hh]
    · rw [read_eq_magic_fail hrd h16' hm]
      simp [h16, hm]

/-- Witness for C6: a read of an empty file takes the short-read branch and
the characterization holds there concretely. -/
theorem c6_eof_characterization_witness :
    ((((fileReadAt []) 16 (0 * 16 % U32)).1).length < 16 →
      ReadFromReader Hash0 MAGIC0 16 (fileReadAt []) 0 16 =
        ⟨none, 0, ((fileReadAt []) 16 (0 * 16 % U32)).2⟩) ∧
    ((ReadFromReader Hash0 MAGIC0 16 (fileReadAt []) 0 16).err =
        some Err.eof ↔
      (((((fileReadAt []) 16 (0 * 16 % U32)).1).length < 16 ∧
        ((fileReadAt []) 16 (0 * 16 % U32)).2 = some Err.eof) ∨
       (16 ≤ (((fileReadAt []) 16 (0 * 16 % U32)).1).length ∧
        (((((fileReadAt []) 16 (0 * 16 % U32)).1).take 16).drop 8).take 4 =
          MAGIC0 ∧
        le32 (((((fileReadAt []) 16 (0 * 16 % U32)).1).take 16).drop 12) =
          Hash0 (((((fileReadAt []) 16 (0 * 16 % U32)).1).take 16).take 12) %
            U32 ∧
        ¬ le32 ((((fileReadAt []) 16 (0 * 16 % U32)).1).take 16) <
          (((fileReadAt []) 16 (0 * 16 % U32)).1).length - 16 ∧
        ((fileReadAt []) (le32 ((((fileReadAt []) 16 (0 * 16 % U32)).1).take 16))
          (0 * 16 % U32 + 16)).2 = some Err.eof))) ∧
    Err.eof ≠ Err.ebadslt ∧ Err.eof ≠ Err.ioErr 0 :=
  c6_eof_characterization Hash0 MAGIC0 16 (fileReadAt []) 0 16

/-- Counterexample to C5 as stated: a 17-byte record (header plus one
payload byte) read with `block_size = 17`.  The initial read returns 17
bytes and the whole record fits inside them (`16 + metadata_length = 17`),
yet a second positional read of 1 byte at position 16 is issued, because
the fast-path test requires the payload to lie strictly inside the block
(`metadataLen < len(block)-16`). -/
theorem c5_counterexample :
    ((fileReadAt (encodeRecord Hash0 MAGIC0 [7]) 17 0).1).length = 17 ∧
    16 + le32 (((fileReadAt (encodeRecord Hash0 MAGIC0 [7]) 17 0).1).take 16) =
      17 ∧
    readCalls Hash0 MAGIC0 16 (fileReadAt (encodeRecord Hash0 MAGIC0 [7])) 0 17 =
      [(17, 0), (1, 16)] := by
  refine ⟨by decide, by decide, by decide⟩

/-- C5 (amended): `ReadFromReader` issues at most two positional reads; when
the record lies strictly inside the bytes returned by the initial read
(`16 + metadata_length < bytes returned`) no second read is issued, and
when the header checks pass but the record does not lie strictly inside
those bytes, exactly one additional read of exactly `metadata_length` bytes
is issued at byte position `offset*PAD + 16`. -/
theorem c5_read_call_count (Hash : List Nat → Nat) (MAGIC : List Nat)
    (PAD : Nat) (reader : ReaderAt) (offset bs : Nat) :
    (readCalls Hash MAGIC PAD reader offset bs).length ≤ 2 ∧
    (16 + le32 (((reader bs (offset * PAD % U32)).1).take 16) <
        ((reader bs (offset * PAD % U32)).1).length →
      readCalls Hash MAGIC PAD reader offset bs =
        [(bs, offset * PAD % U32)]) ∧
    (16 ≤ ((reader bs (offset * PAD % U32)).1).length →
      ((((reader bs (offset * PAD % U32)).1).take 16).drop 8).take 4 = MAGIC →
      le32 ((((reader bs (offset * PAD % U32)).1).take 16).drop 12) =
        Hash ((((reader bs (offset * PAD % U32)).1).take 16).take 12) % U32 →
      ¬ 16 + le32 (((reader bs (offset * PAD % U32)).1).take 16) <
        ((reader bs (offset * PAD % U32)).1).length →
      readCalls Hash MAGIC PAD reader offset bs =
        [(bs, offset * PAD % U32),
          (le32 (((reader bs (offset * PAD % U32)).1).take 16),
            offset * PAD % U32 + 16)]) := by
  rcases hrd : reader bs (offset * PAD % U32) with ⟨bytes1, e1⟩
  simp only [hrd]
  by_cases h16 : bytes1.length < 16
  · have hrc : readCalls Hash MAGIC PAD reader offset bs =
        [(bs, offset * PAD % U32)] := by
      simp only [readCalls, hrd]
      simp [h16]
    exact ⟨by rw [hrc]; simp, fun _ => hrc, fun hge _ _ _ => by omega⟩
  · have h16' : 16 ≤ bytes1.length := Nat.not_lt.1 h16
    by_cases hm : ((bytes1.take 16).drop 8).take 4 = MAGIC
    · by_cases hh : le32 ((bytes1.take 16).drop 12) =
        Hash ((bytes1.take 16).take 12) % U32
      · by_cases hfast : le32 (bytes1.take 16) < bytes1.length - 16
        · have hrc : readCalls Hash MAGIC PAD reader offset bs =
              [(bs, offset * PAD % U32)] := by
            simp only [readCalls, hrd]
            simp [h16, hm, hh, hfast]
          exact ⟨by rw [hrc]; simp, fun _ => hrc,
            fun _ _ _ hns => absurd (by omega) hns⟩
        · have hrc : readCalls Hash MAGIC PAD reader offset bs =
              [(bs, offset * PAD % U32),
                (le32 (bytes1.take 16), offset * PAD % U32 + 16)] := by
            simp only [readCalls, hrd]
            simp [h16, hm, hh, hfast]
          exact ⟨by rw [hrc]; simp, fun hlt => absurd (by omega) hfast,
            fun _ _ _ _ => hrc⟩
      · have hrc : readCalls Hash MAGIC PAD reader offset bs =
            [(bs, offset * PAD % U32)] := by
          simp only [readCalls, hrd]
          simp [h16, hm, hh]
        exact ⟨by rw [hrc]; simp, fun _ => hrc, fun _ _ hh' _ => absurd hh' hh⟩
    · have hrc : readCalls Hash MAGIC PAD reader offset bs =
          [(bs, offset * PAD % U32)] := by
        simp only [readCalls, hrd]
        simp [h16, hm]
      exact ⟨by rw [hrc]; simp, fun _ => hrc, fun _ hm' _ _ => absurd hm' hm⟩

/-- Witness for C5: a one-byte record read with `block_size = 4096` takes
the fast path, and the same record read with `block_size = 16` (header
only) issues the extra one-byte read at position 16. -/
theorem c5_read_call_count_witness :
    readCalls Hash0 MAGIC0 16
        (fileReadAt (encodeRecord Hash0 MAGIC0 [7] ++ List.replicate 15 0)) 0
        4096 = [(4096, 0)] ∧
    readCalls Hash0 MAGIC0 16 (fileReadAt (encodeRecord Hash0 MAGIC0 [7])) 0
        16 = [(16, 0), (1, 16)] :=
  ⟨(c5_read_call_count Hash0 MAGIC0 16
      (fileReadAt (encodeRecord Hash0 MAGIC0 [7] ++ List.replicate 15 0)) 0
      4096).2.1 (by decide),
    (c5_read_call_count Hash0 MAGIC0 16
      (fileReadAt (encodeRecord Hash0 MAGIC0 [7])) 0 16).2.2 (by decide)
      (by decide) (by decide) (by decide)⟩

/-- Witness for C8: an all-corrupt 32-byte file (`N = 2` units of
`PAD = 16`) scans to a successful end within 3 loop steps. -/
theorem c8_scan_all_corrupt_terminates_witness :
    ScanFromReader Hash0 MAGIC0 16 (fileReadAt (List.replicate 32 1)) 16 cb0
      3 0 = ([], ScanEnd.done none) :=
  c8_scan_all_corrupt_terminates Hash0 MAGIC0 16 16 cb0
    (List.replicate 32 1) 2 (by decide) (by decide) (by decide) (by decide)
    (fun o ho => by
      have h2 : o = 0 ∨ o = 1 := by omega
      rcases h2 with h2 | h2 <;> rw [h2] <;> decide)
    3 (by decide)
